import Mathlib

/-!
Verification of the conversation/tool orchestration engine of the openai-cli
repository (src/ui/components/message-handler.ts, src/ui/components/tool-permission.ts,
src/ui/screens/welcome-simple.ts) against its natural-language specification.

The TypeScript sources are shallowly embedded: stored history messages, the
request-building conversion loop, the tool dispatcher, the per-turn streaming
loop and the confirmation prompts become pure Lean functions.  External
collaborators that live outside the verified sources (the model transport,
JSON parsing, the capability registry, the history selector) are passed in as
function parameters, so every theorem quantifies over their behaviour.
-/

namespace OpenAICli

/-- Roles of the outgoing API request messages (ChatMessage.role). -/
inductive Role
  | system
  | user
  | assistant
  | tool
deriving DecidableEq, Repr

/-- Types of stored history messages (Message.type in the sources). -/
inductive MsgType
  | user
  | ai
  | tool
  | system
deriving DecidableEq, Repr

/-- One entry of an assistant tool-call list: matches the shape
`id, function.name, function.arguments` used by handleToolCall. -/
structure ToolCallRecord where
  id : String
  fnName : String
  rawArguments : String
deriving DecidableEq, Repr

/-- Content of a stored message.  The sources keep arbitrary JS values here;
the claims only distinguish plain text, error objects (the literal
`error: ...` objects built by handleToolCall) and other structured results. -/
inductive MsgContent
  | text (s : String)
  | errorObj (msg : String)
deriving DecidableEq, Repr

/-- A stored history message (the `Message` type consumed by
`callbacks.addMessage` / `getRecentMessages`).  Render-only fields
(`displayContent`, `timestamp`) are omitted: no verified code path reads
them back. -/
structure Message where
  type : MsgType
  content : MsgContent
  tool_calls : List ToolCallRecord := []
  tool_call_id : Option String := none
  name : Option String := none
deriving DecidableEq, Repr

/-- A message of the outgoing API request (the `ChatMessage` built by
buildChatMessages). -/
structure ChatMessage where
  role : Role
  content : String
  tool_calls : List ToolCallRecord := []
  tool_call_id : Option String := none
deriving DecidableEq, Repr

/-- `typeof msg.content === 'string' ? msg.content : JSON.stringify(msg.content)`
from the tool branch of the conversion loop. -/
def contentToString : MsgContent → String
  | MsgContent.text s => s
  | MsgContent.errorObj m => "\x7b\"error\":\"" ++ m ++ "\"\x7d"

/-- The conversion loop of buildChatMessages (message-handler.ts lines
906-936).  The first argument is the running `expectedToolMessages`
counter: a user message resets it to zero, an assistant message sets it to
the length of its tool-call list, a tool message is kept only while the
counter is positive (otherwise it is an orphan and dropped), and any other
message type is skipped without touching the counter. -/
def convertLoop : Nat → List Message → List ChatMessage
  | _, [] => []
  | expected, msg :: rest =>
    match msg.type with
    | MsgType.user =>
        { role := Role.user, content := contentToString msg.content } :: convertLoop 0 rest
    | MsgType.ai =>
        let assistantMessage : ChatMessage :=
          { role := Role.assistant, content := contentToString msg.content,
            tool_calls := msg.tool_calls }
        assistantMessage ::
          convertLoop (if assistantMessage.tool_calls.length > 0
                       then assistantMessage.tool_calls.length else 0) rest
    | MsgType.tool =>
        if expected > 0 then
          { role := Role.tool, content := contentToString msg.content,
            tool_call_id := msg.tool_call_id } :: convertLoop (expected - 1) rest
        else
          convertLoop expected rest
    | MsgType.system => convertLoop expected rest

/-- Rewrite the first user-role message of a list, leaving everything else
untouched (helper for `rewriteLastUser`). -/
def rewriteFirstUser (f : String → String) : List ChatMessage → List ChatMessage
  | [] => []
  | m :: rest =>
    if m.role = Role.user then { m with content := f m.content } :: rest
    else m :: rewriteFirstUser f rest

/-- The final step of buildChatMessages (lines 968-1008): the last user-role
message of the request has its content rewritten (file-reference cleanup,
file contents, image parts).  Only the content changes; role, tool calls
and tool-call ids are untouched. -/
def rewriteLastUser (f : String → String) (l : List ChatMessage) : List ChatMessage :=
  (rewriteFirstUser f l.reverse).reverse

/-- Role-and-group signature of a request message: its role together with
the length of its tool-call list.  The pairing invariant only depends on
this signature. -/
def roleSig (m : ChatMessage) : Role × Nat := (m.role, m.tool_calls.length)

/-- Scanning check of the §3 pairing invariant over signatures: a tool
message is permitted only while the counter left by the preceding
assistant message is positive; any non-tool message resets the counter
(to its own tool-call count for an assistant message, to zero otherwise). -/
def pairingOkAux : Nat → List (Role × Nat) → Bool
  | _, [] => true
  | allowed, sig :: rest =>
    match sig.1 with
    | Role.tool => decide (0 < allowed) && pairingOkAux (allowed - 1) rest
    | Role.assistant => pairingOkAux sig.2 rest
    | _ => pairingOkAux 0 rest

/-- The §3 pairing invariant of a built request: starting with no tool
messages allowed, every tool message sits directly inside the group opened
by the closest preceding assistant message, and each group holds at most
as many tool messages as that assistant message has tool calls. -/
def pairingOk (l : List ChatMessage) : Bool :=
  pairingOkAux 0 (l.map roleSig)

theorem convertLoop_pairing (msgs : List Message) :
    ∀ expected : Nat, pairingOkAux expected ((convertLoop expected msgs).map roleSig) = true := by
  induction msgs with
  | nil => intro expected; simp [convertLoop, pairingOkAux]
  | cons msg rest ih =>
    intro expected
    cases htype : msg.type with
    | user => simp [convertLoop, htype, pairingOkAux, roleSig, ih 0]
    | ai =>
      simp [convertLoop, htype, pairingOkAux, roleSig]
      split
      · exact ih _
      · next h =>
          have hzero : msg.tool_calls.length = 0 := Nat.eq_zero_of_not_pos h
          rw [hzero]
          exact ih 0
    | tool =>
      by_cases hpos : 0 < expected
      · have hne : expected > 0 := hpos
        simp [convertLoop, htype, hne, pairingOkAux, roleSig, hpos, ih (expected - 1)]
      · have hz : ¬ expected > 0 := hpos
        simp [convertLoop, htype, hz, ih expected]
    | system => simp [convertLoop, htype, ih expected]

theorem rewriteFirstUser_map_roleSig (f : String → String) (l : List ChatMessage) :
    (rewriteFirstUser f l).map roleSig = l.map roleSig := by
  induction l with
  | nil => rfl
  | cons m rest ih =>
    by_cases h : m.role = Role.user
    · simp [rewriteFirstUser, h, roleSig]
    · simp [rewriteFirstUser, h, roleSig, ih]

theorem rewriteLastUser_map_roleSig (f : String → String) (l : List ChatMessage) :
    (rewriteLastUser f l).map roleSig = l.map roleSig := by
  unfold rewriteLastUser
  rw [List.map_reverse, rewriteFirstUser_map_roleSig, List.map_reverse, List.reverse_reverse]

/-- The persisted confirmation-policy configuration
(McpFunctionConfirmationConfig): a finite map from capability name to a
requires-confirmation flag, modelled as an association list. -/
def ConfStore : Type := List (String × Bool)

instance : DecidableEq ConfStore := by
  unfold ConfStore
  infer_instance

/-- StorageService.isFunctionConfirmationRequired: look the capability up in
the persisted configuration; an unset capability needs no confirmation
(the spec §8 scenario has the dispatcher auto-approve when no policy is
set).  The storage module itself is outside the embedded sources; this is
the dictionary semantics its callers (part_005 and handleToolCall) rely
on. -/
def isFunctionConfirmationRequired (store : ConfStore) (functionName : String) : Bool :=
  (store.lookup functionName).getD false

/-- The environment of one turn: everything processAIRequest consumes from
outside the verified sources.  `select` stands for
TokenCalculator.selectHistoryMessages as used at its call site (selected
window plus optional summary), `parse` for JSON.parse (error = thrown
exception with its message), `confirm` for the resolved value of
askUserConfirmation, `execute` for systemDetector.executeMcpTool (error =
thrown exception) and `rewrite` for the last-user-message content
rewriting; `systemContent` is the system preamble assembled from the
language pack, role and TODO state. -/
structure TurnEnv where
  configValid : Bool
  systemContent : List Message → String
  select : List Message → List Message × Option String
  rewrite : String → String
  parse : String → Except String String
  confirm : ToolCallRecord → Bool
  execute : String → String → Except String String

/-- The system message pushed first by buildChatMessages:
`if (systemMessageContent) chatMessages.push(...)` — present exactly when
the assembled content is a non-empty string. -/
def systemBase (content : String) : List ChatMessage :=
  if content = "" then [] else [{ role := Role.system, content := content }]

/-- buildChatMessages (message-handler.ts lines 872-1012): build the system
message (base content plus the optional summary sentence), push it when
non-empty, convert the selected window with the pairing-preserving loop,
then rewrite the content of the last user message. -/
def buildChatMessages (env : TurnEnv) (history : List Message) : List ChatMessage :=
  let selected := env.select history
  let summaryPart :=
    match selected.2 with
    | some s => "\n\n[Prior conversation summary: " ++ s ++ "]"
    | none => ""
  let systemMessageContent := env.systemContent history ++ summaryPart
  rewriteLastUser env.rewrite (systemBase systemMessageContent ++ convertLoop 0 selected.1)

theorem pairingOkAux_append (l1 l2 : List (Role × Nat))
    (hreset : ∀ sig ∈ l1, sig.1 ≠ Role.tool ∧ sig.1 ≠ Role.assistant)
    (h2 : pairingOkAux 0 l2 = true) :
    pairingOkAux 0 (l1 ++ l2) = true := by
  induction l1 with
  | nil => simpa using h2
  | cons sig rest ih =>
    have hsig := hreset sig (List.mem_cons_self sig rest)
    have ihrest := ih (fun s hs => hreset s (List.mem_cons_of_mem sig hs))
    cases hrole : sig.1 with
    | tool => exact absurd hrole hsig.1
    | assistant => exact absurd hrole hsig.2
    | user =>
      simp only [List.cons_append, pairingOkAux, hrole]
      exact ihrest
    | system =>
      simp only [List.cons_append, pairingOkAux, hrole]
      exact ihrest

theorem pairingOkAux_zero_head (sig : Role × Nat) (rest : List (Role × Nat))
    (h : pairingOkAux 0 (sig :: rest) = true) : sig.1 ≠ Role.tool := by
  intro htool
  simp [pairingOkAux, htool] at h

/-- The first message of the built request is never a tool message. -/
def headNotTool (l : List ChatMessage) : Bool :=
  l.head?.all fun m => decide (m.role ≠ Role.tool)

theorem pairingOk_headNotTool (l : List ChatMessage)
    (h : pairingOk l = true) : headNotTool l = true := by
  cases l with
  | nil => rfl
  | cons m rest =>
    unfold pairingOk at h
    simp only [List.map_cons] at h
    have := pairingOkAux_zero_head (roleSig m) (rest.map roleSig) h
    simp [headNotTool, Option.all]
    simpa [roleSig] using this

theorem systemBase_sig (c : String) :
    ∀ sig ∈ (systemBase c).map roleSig, sig.1 ≠ Role.tool ∧ sig.1 ≠ Role.assistant := by
  intro sig hs
  unfold systemBase at hs
  by_cases h : c = ""
  · simp [h] at hs
  · simp only [h, if_neg, ite_false, List.map_cons, List.map_nil, List.mem_singleton] at hs
    simp [hs, roleSig]

/-- C1: for every conversation history and every behaviour of the token
budgeter (the selected window may be anything), the request built by
buildChatMessages satisfies the pairing invariant — it never starts with a
tool message, every tool message sits directly after an assistant message
bearing tool calls, at most as many tool messages follow as that assistant
message has tool calls, and orphaned tool messages are dropped by the
conversion loop. -/
theorem buildChatMessages_pairing_invariant (env : TurnEnv) (history : List Message) :
    pairingOk (buildChatMessages env history) = true ∧
    headNotTool (buildChatMessages env history) = true := by
  have hpair : pairingOk (buildChatMessages env history) = true := by
    simp only [buildChatMessages, pairingOk]
    rw [rewriteLastUser_map_roleSig, List.map_append]
    exact pairingOkAux_append _ _ (systemBase_sig _) (convertLoop_pairing _ 0)
  exact ⟨hpair, pairingOk_headNotTool _ hpair⟩

/-- `JSON.parse(toolCall.function.arguments || '\x7b\x7d')`: an empty
argument string falls back to the empty JSON object. -/
def argumentsOrDefault (call : ToolCallRecord) : String :=
  if call.rawArguments = "" then "\x7b\x7d" else call.rawArguments

/-- The rejection text `User rejected the tool call: functionName`. -/
def rejectionText (functionName : String) : String :=
  "User rejected the tool call: " ++ functionName

/-- The error tool-result message of handleToolCall: built both for a user
rejection and in the catch branch for a thrown parse or execution error,
always tagged with the originating call id. -/
def errorToolMessage (call : ToolCallRecord) (errMsg : String) : Message :=
  { type := MsgType.tool, content := MsgContent.errorObj errMsg,
    tool_call_id := some call.id, name := some call.fnName }

/-- The success tool-result message of handleToolCall, tagged with the
originating call id and carrying the capability result. -/
def successToolMessage (call : ToolCallRecord) (result : String) : Message :=
  { type := MsgType.tool, content := MsgContent.text result,
    tool_call_id := some call.id, name := some call.fnName }

/-- handleToolCall (message-handler.ts lines 627-779): parse the raw
arguments (a thrown parse error is caught and becomes an error
tool-result), consult the confirmation policy, ask the user when
required (denial yields the rejection tool-result without invoking the
capability), then invoke the capability, catching a thrown execution
error as an error tool-result.  Every path produces exactly one tool
message; the confirmation store is only read, never written. -/
def handleToolCall (env : TurnEnv) (store : ConfStore) (call : ToolCallRecord) :
    Message × ConfStore :=
  match env.parse (argumentsOrDefault call) with
  | Except.error e => (errorToolMessage call e, store)
  | Except.ok parameters =>
    if isFunctionConfirmationRequired store call.fnName then
      if env.confirm call then
        match env.execute call.fnName parameters with
        | Except.ok result => (successToolMessage call result, store)
        | Except.error e => (errorToolMessage call e, store)
      else
        (errorToolMessage call (rejectionText call.fnName), store)
    else
      match env.execute call.fnName parameters with
      | Except.ok result => (successToolMessage call result, store)
      | Except.error e => (errorToolMessage call e, store)

/-- The dispatch loop of processAIRequest (lines 590-592): handle each
tool call of the completed assistant response in order, appending its
single result message; the confirmation store is threaded through. -/
def dispatchCalls (env : TurnEnv) : ConfStore → List ToolCallRecord → List Message × ConfStore
  | store, [] => ([], store)
  | store, call :: rest =>
    let r := handleToolCall env store call
    let rs := dispatchCalls env r.2 rest
    (r.1 :: rs.1, rs.2)

/-- Whether a tool-result message reports a failure (its content is one of
the `error: ...` objects built by handleToolCall). -/
def isErrorToolMessage (m : Message) : Bool :=
  match m.content with
  | MsgContent.errorObj _ => true
  | _ => false

def execFailed : Except String String → Bool
  | Except.error _ => true
  | Except.ok _ => false

/-- Decision-tree characterisation of which calls yield an error
tool-result: a failed argument parse, a denied confirmation, or a thrown
capability execution. -/
def callFails (env : TurnEnv) (store : ConfStore) (call : ToolCallRecord) : Bool :=
  match env.parse (argumentsOrDefault call) with
  | Except.error _ => true
  | Except.ok parameters =>
    if isFunctionConfirmationRequired store call.fnName then
      if env.confirm call then execFailed (env.execute call.fnName parameters)
      else true
    else execFailed (env.execute call.fnName parameters)

theorem handleToolCall_store (env : TurnEnv) (store : ConfStore) (call : ToolCallRecord) :
    (handleToolCall env store call).2 = store := by
  unfold handleToolCall
  cases env.parse (argumentsOrDefault call) with
  | error e => rfl
  | ok p =>
    by_cases hc : isFunctionConfirmationRequired store call.fnName
    · by_cases ha : env.confirm call
      · simp only [hc, ha, if_true]
        cases env.execute call.fnName p <;> rfl
      · simp [hc, ha]
    · simp only [hc, Bool.false_eq_true, if_false]
      cases env.execute call.fnName p <;> rfl

theorem dispatchCalls_store (env : TurnEnv) (store : ConfStore) (calls : List ToolCallRecord) :
    (dispatchCalls env store calls).2 = store := by
  induction calls generalizing store with
  | nil => rfl
  | cons call rest ih =>
    simp only [dispatchCalls, handleToolCall_store]
    exact ih store

theorem dispatchCalls_eq_map (env : TurnEnv) (store : ConfStore) (calls : List ToolCallRecord) :
    (dispatchCalls env store calls).1 = calls.map (fun c => (handleToolCall env store c).1) := by
  induction calls generalizing store with
  | nil => rfl
  | cons call rest ih =>
    simp only [dispatchCalls, List.map_cons, handleToolCall_store]
    rw [ih store]

theorem handleToolCall_shape (env : TurnEnv) (store : ConfStore) (call : ToolCallRecord) :
    (handleToolCall env store call).1.type = MsgType.tool ∧
    (handleToolCall env store call).1.tool_call_id = some call.id := by
  unfold handleToolCall
  cases env.parse (argumentsOrDefault call) with
  | error e => exact ⟨rfl, rfl⟩
  | ok p =>
    by_cases hc : isFunctionConfirmationRequired store call.fnName
    · by_cases ha : env.confirm call
      · simp only [hc, ha, if_true]
        cases env.execute call.fnName p <;> exact ⟨rfl, rfl⟩
      · simp [hc, ha, errorToolMessage]
    · simp only [hc, Bool.false_eq_true, if_false]
      cases env.execute call.fnName p <;> exact ⟨rfl, rfl⟩

theorem handleToolCall_error_iff (env : TurnEnv) (store : ConfStore) (call : ToolCallRecord) :
    isErrorToolMessage (handleToolCall env store call).1 = callFails env store call := by
  unfold handleToolCall callFails
  cases env.parse (argumentsOrDefault call) with
  | error e => rfl
  | ok p =>
    by_cases hc : isFunctionConfirmationRequired store call.fnName
    · by_cases ha : env.confirm call
      · simp only [hc, ha, if_true]
        cases env.execute call.fnName p <;> rfl
      · simp [hc, ha, errorToolMessage, isErrorToolMessage]
    · simp only [hc, Bool.false_eq_true, if_false]
      cases env.execute call.fnName p <;> rfl

/-- A concrete environment used for closed scenarios: parsing fails exactly
on the text `bad json`, confirmation is denied exactly for the capability
`deny_me`, execution throws exactly for the capability `explode`. -/
def envA : TurnEnv :=
  { configValid := true
    systemContent := fun _ => "system prompt"
    select := fun h => (h, none)
    rewrite := id
    parse := fun s => if s = "bad json" then Except.error "Unexpected token" else Except.ok s
    confirm := fun call => decide (call.fnName ≠ "deny_me")
    execute := fun fn args =>
      if fn = "explode" then Except.error "boom" else Except.ok ("ran " ++ fn ++ " " ++ args) }

/-- A concrete confirmation-policy store: two capabilities require
confirmation, everything else is auto-approved. -/
def storeA : ConfStore := [("file-system_edit_file", true), ("deny_me", true)]

def callA : ToolCallRecord :=
  { id := "call_a", fnName := "list_directory", rawArguments := "\x7b\"path\":\".\"\x7d" }

def callB : ToolCallRecord :=
  { id := "call_b", fnName := "read_file", rawArguments := "bad json" }

def callC : ToolCallRecord :=
  { id := "call_c", fnName := "execute_command", rawArguments := "\x7b\"command\":\"ls\"\x7d" }

/-- C2: the dispatcher processes the tool-call batch strictly in order and
appends exactly one tool-result message per call, each tagged with its
originating call id; a call fails (yielding an error tool-result) exactly
on a parse failure, a denied confirmation or a thrown execution, and the
surrounding calls still produce their own results — concretely,
dispatching calls a, b, c where only b fails argument parsing yields the
ordered results a-result, b-error, c-result. -/
theorem dispatch_ordered_one_result_per_call (env : TurnEnv) (store : ConfStore)
    (calls : List ToolCallRecord) :
    (dispatchCalls env store calls).1.length = calls.length ∧
    (∀ i : Fin calls.length,
      (dispatchCalls env store calls).1.get? i.val =
        some ((handleToolCall env store (calls.get i)).1)) ∧
    (∀ i : Fin calls.length,
      ((handleToolCall env store (calls.get i)).1).type = MsgType.tool ∧
      ((handleToolCall env store (calls.get i)).1).tool_call_id = some (calls.get i).id) ∧
    (∀ call : ToolCallRecord,
      isErrorToolMessage (handleToolCall env store call).1 = callFails env store call) ∧
    (dispatchCalls envA [] [callA, callB, callC]).1.map isErrorToolMessage =
      [false, true, false] ∧
    (dispatchCalls envA [] [callA, callB, callC]).1.map Message.tool_call_id =
      [some "call_a", some "call_b", some "call_c"] := by
  refine ⟨?_, ?_, ?_, handleToolCall_error_iff env store, ?_, ?_⟩
  · rw [dispatchCalls_eq_map]
    simp
  · intro i
    rw [dispatchCalls_eq_map, List.get?_map, List.get?_eq_get i.isLt]
    rfl
  · intro i
    exact handleToolCall_shape env store (calls.get i)
  · decide
  · decide

/-- C3: when a confirmation-required call is denied by the user, the
dispatcher produces the rejection error tool-result tagged with that call
id, and the capability is never invoked: the outcome is independent of
the execute collaborator. -/
theorem denied_confirmation_yields_rejection (env : TurnEnv) (store : ConfStore)
    (call : ToolCallRecord) (p : String)
    (hparse : env.parse (argumentsOrDefault call) = Except.ok p)
    (hreq : isFunctionConfirmationRequired store call.fnName = true)
    (hdeny : env.confirm call = false) :
    (handleToolCall env store call).1 = errorToolMessage call (rejectionText call.fnName) ∧
    isErrorToolMessage (handleToolCall env store call).1 = true ∧
    ∀ exec1 exec2 : String → String → Except String String,
      handleToolCall { env with execute := exec1 } store call =
      handleToolCall { env with execute := exec2 } store call := by
  refine ⟨?_, ?_, ?_⟩
  · simp [handleToolCall, hparse, hreq, hdeny]
  · simp [handleToolCall, hparse, hreq, hdeny, isErrorToolMessage, errorToolMessage]
  · intro exec1 exec2
    simp [handleToolCall, hparse, hreq, hdeny]

def callDeny : ToolCallRecord :=
  { id := "call_d", fnName := "deny_me", rawArguments := "\x7b\x7d" }

theorem denied_confirmation_yields_rejection_witness :
    (handleToolCall envA storeA callDeny).1 =
      errorToolMessage callDeny (rejectionText "deny_me") :=
  (denied_confirmation_yields_rejection envA storeA callDeny "\x7b\x7d"
    (by rfl) (by decide) (by decide)).1

/-- The assistant message appended by onAssistantMessage when the exchange
requested tools (message-handler.ts lines 528-535). -/
def assistantMessage (content : String) (calls : List ToolCallRecord) : Message :=
  { type := MsgType.ai, content := MsgContent.text content, tool_calls := calls }

/-- The assistant message appended by onComplete for a content-only
response (lines 562-570). -/
def aiMessage (content : String) : Message :=
  { type := MsgType.ai, content := MsgContent.text content }

/-- The user message built by addUserMessage (lines 237-247). -/
def userMessage (content : String) : Message :=
  { type := MsgType.user, content := MsgContent.text content }

/-- welcome-simple.ts addMessage (lines 723-725): push one message onto the
stored history. -/
def addMessage (history : List Message) (m : Message) : List Message :=
  history ++ [m]

/-- addUserMessage: append the user message to the stored history. -/
def addUserMessage (history : List Message) (content : String) : List Message :=
  addMessage history (userMessage content)

/-- The outcome of one streaming exchange as observed at the call site of
openAIService.streamChat: the assistant requested tools (result.status is
tool_calls), completed with content (onComplete fired), failed (onError
fired, which stops the loop), or the exchange was cancelled or threw
(caught by the outer try, ending the turn). -/
inductive ExchangeOutcome
  | toolCalls (content : String) (calls : List ToolCallRecord)
  | completed (content : String)
  | failed (err : String)
  | cancelled
deriving DecidableEq, Repr

def isToolCallsOutcome : ExchangeOutcome → Bool
  | ExchangeOutcome.toolCalls _ _ => true
  | _ => false

/-- One iteration of the streaming loop as recorded for analysis: the
history at the start of the iteration, the request built and handed to
the transport for it, and how the exchange ended. -/
structure IterRecord where
  histBefore : List Message
  ctx : List ChatMessage
  outcome : ExchangeOutcome
deriving DecidableEq

/-- The observable result of one turn: the iteration trace, the final
stored history, the confirmation store, whether the loop reached a
terminal outcome (rather than running out of fuel) and whether the turn
was aborted by the configuration check before any exchange. -/
structure TurnResult where
  trace : List IterRecord
  history : List Message
  store : ConfStore
  ended : Bool
  configAborted : Bool
deriving DecidableEq

/-- The while loop of processAIRequest (message-handler.ts lines 466-598):
every iteration rebuilds the request from the current history and runs
one exchange; a tool_calls result appends the assistant message and the
ordered tool-results and loops, any other outcome ends the turn.  The
n-th exchange outcome comes from the transport oracle `exchanges`; `fuel`
bounds the number of iterations (the source loop has no intrinsic
bound). -/
def runLoop (env : TurnEnv) (exchanges : Nat → ExchangeOutcome) :
    Nat → Nat → ConfStore → List Message → TurnResult
  | 0, _, store, history =>
    { trace := [], history := history, store := store, ended := false, configAborted := false }
  | fuel + 1, iter, store, history =>
    let ctx := buildChatMessages env history
    match exchanges iter with
    | ExchangeOutcome.toolCalls content calls =>
      let hist1 := addMessage history (assistantMessage content calls)
      let dispatched := dispatchCalls env store calls
      let hist2 := hist1 ++ dispatched.1
      let rest := runLoop env exchanges fuel (iter + 1) dispatched.2 hist2
      { rest with
          trace := ⟨history, ctx, ExchangeOutcome.toolCalls content calls⟩ :: rest.trace }
    | ExchangeOutcome.completed content =>
      { trace := [⟨history, ctx, ExchangeOutcome.completed content⟩],
        history := if content = "" then history else addMessage history (aiMessage content),
        store := store, ended := true, configAborted := false }
    | ExchangeOutcome.failed e =>
      { trace := [⟨history, ctx, ExchangeOutcome.failed e⟩],
        history := history, store := store, ended := true, configAborted := false }
    | ExchangeOutcome.cancelled =>
      { trace := [⟨history, ctx, ExchangeOutcome.cancelled⟩],
        history := history, store := store, ended := true, configAborted := false }

/-- processAIRequest: the API configuration is validated first — an invalid
configuration aborts the turn before any exchange — then the streaming
loop runs. -/
def processAIRequest (env : TurnEnv) (exchanges : Nat → ExchangeOutcome)
    (fuel : Nat) (store : ConfStore) (history : List Message) : TurnResult :=
  if env.configValid then runLoop env exchanges fuel 0 store history
  else
    { trace := [], history := history, store := store, ended := false, configAborted := true }

theorem runLoop_store (env : TurnEnv) (ex : Nat → ExchangeOutcome) (fuel : Nat) :
    ∀ iter store hist, (runLoop env ex fuel iter store hist).store = store := by
  induction fuel with
  | zero => intro iter store hist; rfl
  | succ fuel ih =>
    intro iter store hist
    simp only [runLoop]
    cases hx : ex iter with
    | toolCalls c cs => simp only [ih, dispatchCalls_store]
    | completed c => rfl
    | failed e => rfl
    | cancelled => rfl

theorem runLoop_ended_of_trace_empty (env : TurnEnv) (ex : Nat → ExchangeOutcome) (fuel : Nat) :
    ∀ iter store hist, (runLoop env ex fuel iter store hist).trace = [] →
      (runLoop env ex fuel iter store hist).ended = false := by
  cases fuel with
  | zero => intro iter store hist _; rfl
  | succ fuel =>
    intro iter store hist h
    simp only [runLoop] at h ⊢
    cases hx : ex iter <;> simp [hx] at h ⊢

theorem runLoop_first_hist (env : TurnEnv) (ex : Nat → ExchangeOutcome) (fuel : Nat) :
    ∀ iter store hist rec, (runLoop env ex fuel iter store hist).trace.get? 0 = some rec →
      rec.histBefore = hist := by
  cases fuel with
  | zero => intro iter store hist rec h; simp [runLoop] at h
  | succ fuel =>
    intro iter store hist rec h
    simp only [runLoop] at h
    cases hx : ex iter <;> simp [hx] at h <;> simp [← h]

theorem runLoop_trace_ctx (env : TurnEnv) (ex : Nat → ExchangeOutcome) (fuel : Nat) :
    ∀ iter store hist, ∀ rec ∈ (runLoop env ex fuel iter store hist).trace,
      rec.ctx = buildChatMessages env rec.histBefore := by
  induction fuel with
  | zero => intro iter store hist rec h; simp [runLoop] at h
  | succ fuel ih =>
    intro iter store hist rec h
    simp only [runLoop] at h
    cases hx : ex iter <;> simp [hx] at h
    case toolCalls c cs =>
      rcases h with h | h
      · simp [h]
      · exact ih (iter + 1) _ _ rec h
    case completed c => simp [h]
    case failed e => simp [h]
    case cancelled => simp [h]

theorem runLoop_mid_outcomes (env : TurnEnv) (ex : Nat → ExchangeOutcome) (fuel : Nat) :
    ∀ iter store hist i rec,
      (runLoop env ex fuel iter store hist).trace.get? i = some rec →
      i + 1 < (runLoop env ex fuel iter store hist).trace.length →
      isToolCallsOutcome rec.outcome = true := by
  induction fuel with
  | zero => intro iter store hist i rec h _; simp [runLoop] at h
  | succ fuel ih =>
    intro iter store hist i rec h hlen
    simp only [runLoop] at h hlen
    cases hx : ex iter with
    | toolCalls c cs =>
      simp only [hx] at h hlen
      cases i with
      | zero =>
        rw [List.get?_cons_zero] at h
        cases h
        rfl
      | succ j =>
        rw [List.get?_cons_succ] at h
        simp only [List.length_cons, Nat.succ_lt_succ_iff] at hlen
        exact ih (iter + 1) _ _ j rec h hlen
    | completed c => simp [hx] at h hlen
    | failed e => simp [hx] at h hlen
    | cancelled => simp [hx] at h hlen

theorem runLoop_ended_last (env : TurnEnv) (ex : Nat → ExchangeOutcome) (fuel : Nat) :
    ∀ iter store hist, (runLoop env ex fuel iter store hist).ended = true →
      ∃ rec, (runLoop env ex fuel iter store hist).trace.getLast? = some rec ∧
        isToolCallsOutcome rec.outcome = false := by
  induction fuel with
  | zero => intro iter store hist h; simp [runLoop] at h
  | succ fuel ih =>
    intro iter store hist hend
    simp only [runLoop] at hend ⊢
    cases hx : ex iter with
    | toolCalls c cs =>
      simp only [hx] at hend ⊢
      rcases ih (iter + 1) (dispatchCalls env store cs).2
        (addMessage hist (assistantMessage c cs) ++ (dispatchCalls env store cs).1) hend with
        ⟨rec, hlast, hnot⟩
      refine ⟨rec, ?_, hnot⟩
      cases htr : (runLoop env ex fuel (iter + 1) (dispatchCalls env store cs).2
          (addMessage hist (assistantMessage c cs) ++ (dispatchCalls env store cs).1)).trace with
      | nil =>
        rw [htr] at hlast
        simp at hlast
      | cons a t =>
        rw [htr] at hlast
        rw [List.getLast?_cons_cons]
        exact hlast
    | completed c =>
      simp only [hx]
      exact ⟨⟨hist, buildChatMessages env hist, ExchangeOutcome.completed c⟩, by simp, rfl⟩
    | failed e =>
      simp only [hx]
      exact ⟨⟨hist, buildChatMessages env hist, ExchangeOutcome.failed e⟩, by simp, rfl⟩
    | cancelled =>
      simp only [hx]
      exact ⟨⟨hist, buildChatMessages env hist, ExchangeOutcome.cancelled⟩, by simp, rfl⟩

theorem runLoop_successor (env : TurnEnv) (ex : Nat → ExchangeOutcome) (fuel : Nat) :
    ∀ iter store hist i rec1 rec2,
      (runLoop env ex fuel iter store hist).trace.get? i = some rec1 →
      (runLoop env ex fuel iter store hist).trace.get? (i + 1) = some rec2 →
      ∃ c cs, rec1.outcome = ExchangeOutcome.toolCalls c cs ∧
        rec2.histBefore =
          addMessage rec1.histBefore (assistantMessage c cs) ++
            (dispatchCalls env store cs).1 := by
  induction fuel with
  | zero => intro iter store hist i rec1 rec2 h1 _; simp [runLoop] at h1
  | succ fuel ih =>
    intro iter store hist i rec1 rec2 h1 h2
    simp only [runLoop] at h1 h2
    cases hx : ex iter with
    | toolCalls c cs =>
      simp only [hx] at h1 h2
      cases i with
      | zero =>
        rw [List.get?_cons_zero] at h1
        rw [List.get?_cons_succ] at h2
        cases h1
        refine ⟨c, cs, rfl, ?_⟩
        have hfirst := runLoop_first_hist env ex fuel (iter + 1) (dispatchCalls env store cs).2
          (addMessage hist (assistantMessage c cs) ++ (dispatchCalls env store cs).1) rec2 h2
        simp [hfirst]
      | succ j =>
        rw [List.get?_cons_succ] at h1 h2
        have hrec := ih (iter + 1) (dispatchCalls env store cs).2
          (addMessage hist (assistantMessage c cs) ++ (dispatchCalls env store cs).1)
          j rec1 rec2 h1 h2
        rwa [dispatchCalls_store] at hrec
    | completed c => simp [hx] at h1 h2
    | failed e => simp [hx] at h1 h2
    | cancelled => simp [hx] at h1 h2

theorem runLoop_hist_grows (env : TurnEnv) (ex : Nat → ExchangeOutcome) (fuel : Nat) :
    ∀ iter store hist, hist <+: (runLoop env ex fuel iter store hist).history := by
  induction fuel with
  | zero => intro iter store hist; exact List.prefix_rfl
  | succ fuel ih =>
    intro iter store hist
    simp only [runLoop]
    cases hx : ex iter with
    | toolCalls c cs =>
      simp only []
      have h1 : hist <+:
          addMessage hist (assistantMessage c cs) ++ (dispatchCalls env store cs).1 := by
        unfold addMessage
        rw [List.append_assoc]
        exact List.prefix_append hist _
      exact h1.trans (ih (iter + 1) (dispatchCalls env store cs).2 _)
    | completed c =>
      simp only []
      by_cases hc : c = ""
      · simp [hc]
      · simp only [hc, if_neg, ite_false]
        exact List.prefix_append hist _
    | failed e => exact List.prefix_rfl
    | cancelled => exact List.prefix_rfl

theorem runLoop_rec_grows (env : TurnEnv) (ex : Nat → ExchangeOutcome) (fuel : Nat) :
    ∀ iter store hist, ∀ rec ∈ (runLoop env ex fuel iter store hist).trace,
      rec.histBefore <+: (runLoop env ex fuel iter store hist).history := by
  induction fuel with
  | zero => intro iter store hist rec h; simp [runLoop] at h
  | succ fuel ih =>
    intro iter store hist rec h
    simp only [runLoop] at h ⊢
    cases hx : ex iter with
    | toolCalls c cs =>
      simp only [hx] at h ⊢
      rcases List.mem_cons.1 h with h | h
      · subst h
        have h1 : hist <+:
            addMessage hist (assistantMessage c cs) ++ (dispatchCalls env store cs).1 := by
          unfold addMessage
          rw [List.append_assoc]
          exact List.prefix_append hist _
        exact h1.trans (runLoop_hist_grows env ex fuel (iter + 1) _ _)
      · exact ih (iter + 1) _ _ rec h
    | completed c =>
      simp only [hx] at h ⊢
      rcases List.mem_singleton.1 h with h
      subst h
      by_cases hc : c = ""
      · simp [hc]
      · simp only [hc, if_neg, ite_false]
        exact List.prefix_append hist _
    | failed e =>
      simp only [hx] at h ⊢
      rcases List.mem_singleton.1 h with h
      subst h
      exact List.prefix_rfl
    | cancelled =>
      simp only [hx] at h ⊢
      rcases List.mem_singleton.1 h with h
      subst h
      exact List.prefix_rfl

theorem runLoop_toolCalls_continues (env : TurnEnv) (ex : Nat → ExchangeOutcome) (fuel : Nat) :
    ∀ iter store hist i rec,
      (runLoop env ex fuel iter store hist).trace.get? i = some rec →
      isToolCallsOutcome rec.outcome = true →
      i + 1 < (runLoop env ex fuel iter store hist).trace.length ∨
        (runLoop env ex fuel iter store hist).ended = false := by
  induction fuel with
  | zero => intro iter store hist i rec h _; simp [runLoop] at h
  | succ fuel ih =>
    intro iter store hist i rec h htc
    simp only [runLoop] at h ⊢
    cases hx : ex iter with
    | toolCalls c cs =>
      simp only [hx] at h ⊢
      cases i with
      | zero =>
        cases htr : (runLoop env ex fuel (iter + 1) (dispatchCalls env store cs).2
            (addMessage hist (assistantMessage c cs) ++ (dispatchCalls env store cs).1)).trace with
        | nil =>
          right
          exact runLoop_ended_of_trace_empty env ex fuel (iter + 1) _ _ htr
        | cons a t =>
          left
          simp [htr]
      | succ j =>
        rw [List.get?_cons_succ] at h
        rcases ih (iter + 1) _ _ j rec h htc with hlt | hend
        · left
          simpa [Nat.succ_lt_succ_iff] using hlt
        · right
          exact hend
    | completed c =>
      simp only [hx] at h
      cases i with
      | zero =>
        rw [List.get?_cons_zero] at h
        cases h
        simp [isToolCallsOutcome] at htc
      | succ j => simp at h
    | failed e =>
      simp only [hx] at h
      cases i with
      | zero =>
        rw [List.get?_cons_zero] at h
        cases h
        simp [isToolCallsOutcome] at htc
      | succ j => simp at h
    | cancelled =>
      simp only [hx] at h
      cases i with
      | zero =>
        rw [List.get?_cons_zero] at h
        cases h
        simp [isToolCallsOutcome] at htc
      | succ j => simp at h

/-- C5: within one user turn the request is rebuilt from the current
conversation at the start of every loop iteration (each recorded request
equals buildChatMessages of the history at that iteration, which grows
between iterations by the assistant message and the dispatched results),
and the stream/dispatch cycle repeats exactly until an exchange completes
without tool calls, fails, or is cancelled: every non-final iteration
ended in tool calls, and when the loop terminated its last exchange was
not a tool-call exchange — no further exchange starts after it. -/
theorem turn_loop_rebuilds_until_terminal (env : TurnEnv) (ex : Nat → ExchangeOutcome)
    (fuel : Nat) (store : ConfStore) (hist : List Message) :
    (∀ rec ∈ (processAIRequest env ex fuel store hist).trace,
       rec.ctx = buildChatMessages env rec.histBefore) ∧
    (∀ i rec, (processAIRequest env ex fuel store hist).trace.get? i = some rec →
       i + 1 < (processAIRequest env ex fuel store hist).trace.length →
       isToolCallsOutcome rec.outcome = true) ∧
    ((processAIRequest env ex fuel store hist).ended = true →
       ∃ rec, (processAIRequest env ex fuel store hist).trace.getLast? = some rec ∧
         isToolCallsOutcome rec.outcome = false) ∧
    (∀ i rec1 rec2,
       (processAIRequest env ex fuel store hist).trace.get? i = some rec1 →
       (processAIRequest env ex fuel store hist).trace.get? (i + 1) = some rec2 →
       ∃ c cs, rec1.outcome = ExchangeOutcome.toolCalls c cs ∧
         rec2.histBefore = addMessage rec1.histBefore (assistantMessage c cs) ++
           (dispatchCalls env store cs).1) := by
  unfold processAIRequest
  by_cases hv : env.configValid = true
  · simp only [hv, if_true]
    exact ⟨runLoop_trace_ctx env ex fuel 0 store hist,
           fun i rec h hl => runLoop_mid_outcomes env ex fuel 0 store hist i rec h hl,
           runLoop_ended_last env ex fuel 0 store hist,
           fun i r1 r2 h1 h2 => runLoop_successor env ex fuel 0 store hist i r1 r2 h1 h2⟩
  · simp [hv]

/-- The transport oracle of the spec §8 scenario: the first exchange
requests one tool call, every later exchange completes with content. -/
def exch0 : Nat → ExchangeOutcome := fun n =>
  if n = 0 then ExchangeOutcome.toolCalls "" [callA] else ExchangeOutcome.completed "done"

def hist0 : List Message := [userMessage "list files"]

theorem turn_loop_rebuilds_until_terminal_witness :
    (∃ rec, (processAIRequest envA exch0 3 [] hist0).trace.getLast? = some rec ∧
       isToolCallsOutcome rec.outcome = false) ∧
    (∀ rec, (processAIRequest envA exch0 3 [] hist0).trace.get? 0 = some rec →
       isToolCallsOutcome rec.outcome = true) := by
  have h := turn_loop_rebuilds_until_terminal envA exch0 3 [] hist0
  refine ⟨h.2.2.1 (by decide), fun rec hrec => h.2.1 0 rec hrec (by decide)⟩

/-- C6: only the configuration check (before any exchange) or a terminal
transport outcome ends the turn; every tool-level failure — a parse
error, an unknown-tool or thrown execution, or a user rejection — is
contained as an error tool-result tagged with its call id, a tool-call
exchange never ends the loop, and the dispatched results (the error
results included) are part of the conversation from which the next
request is built. -/
theorem tool_failures_contained (env : TurnEnv) (ex : Nat → ExchangeOutcome)
    (fuel : Nat) (store : ConfStore) (hist : List Message) :
    (env.configValid = false →
       (processAIRequest env ex fuel store hist).trace = [] ∧
       (processAIRequest env ex fuel store hist).history = hist) ∧
    (∀ call, callFails env store call = true →
       isErrorToolMessage (handleToolCall env store call).1 = true ∧
       (handleToolCall env store call).1.type = MsgType.tool ∧
       (handleToolCall env store call).1.tool_call_id = some call.id) ∧
    (∀ i rec, (processAIRequest env ex fuel store hist).trace.get? i = some rec →
       isToolCallsOutcome rec.outcome = true →
       i + 1 < (processAIRequest env ex fuel store hist).trace.length ∨
         (processAIRequest env ex fuel store hist).ended = false) ∧
    (∀ i rec1 rec2 c cs,
       (processAIRequest env ex fuel store hist).trace.get? i = some rec1 →
       (processAIRequest env ex fuel store hist).trace.get? (i + 1) = some rec2 →
       rec1.outcome = ExchangeOutcome.toolCalls c cs →
       ∀ m ∈ (dispatchCalls env store cs).1, m ∈ rec2.histBefore) := by
  refine ⟨?_, ?_, ?_, ?_⟩
  · intro hv
    unfold processAIRequest
    simp [hv]
  · intro call hfail
    refine ⟨?_, (handleToolCall_shape env store call).1, (handleToolCall_shape env store call).2⟩
    rw [handleToolCall_error_iff]
    exact hfail
  · unfold processAIRequest
    by_cases hv : env.configValid = true
    · simp only [hv, if_true]
      exact fun i rec h htc => runLoop_toolCalls_continues env ex fuel 0 store hist i rec h htc
    · simp [hv]
  · intro i rec1 rec2 c cs h1 h2 houtcome m hm
    unfold processAIRequest at h1 h2
    by_cases hv : env.configValid = true
    · simp only [hv, if_true] at h1 h2
      rcases runLoop_successor env ex fuel 0 store hist i rec1 rec2 h1 h2 with
        ⟨c2, cs2, hout2, hhist⟩
      rw [houtcome] at hout2
      cases hout2
      rw [hhist]
      exact List.mem_append_right _ hm
    · simp [hv] at h1

def callExplode : ToolCallRecord :=
  { id := "call_e", fnName := "explode", rawArguments := "\x7b\x7d" }

theorem tool_failures_contained_witness :
    (isErrorToolMessage (handleToolCall envA [] callB).1 = true ∧
       (handleToolCall envA [] callB).1.type = MsgType.tool ∧
       (handleToolCall envA [] callB).1.tool_call_id = some "call_b") ∧
    (isErrorToolMessage (handleToolCall envA [] callExplode).1 = true ∧
       (handleToolCall envA [] callExplode).1.type = MsgType.tool ∧
       (handleToolCall envA [] callExplode).1.tool_call_id = some "call_e") ∧
    (processAIRequest { envA with configValid := false } exch0 3 [] hist0).trace = [] := by
  have h := tool_failures_contained envA exch0 3 [] hist0
  have hbad := tool_failures_contained { envA with configValid := false } exch0 3 [] hist0
  exact ⟨h.2.1 callB (by decide), h.2.1 callExplode (by decide), (hbad.1 (by decide)).1⟩

/-- C7: the conversation is append-only: the initial history is a prefix of
the final one, the history of every loop iteration is a prefix of the
final history and of the next iteration's history, every stored message
keeps its position and value, and the submit/append operations are pure
appends; building the request never alters the stored history (each
recorded request is a pure function of the history at its iteration,
stated in the C5 theorem). -/
theorem conversation_append_only (env : TurnEnv) (ex : Nat → ExchangeOutcome)
    (fuel : Nat) (store : ConfStore) (hist : List Message) :
    hist <+: (processAIRequest env ex fuel store hist).history ∧
    (∀ rec ∈ (processAIRequest env ex fuel store hist).trace,
       rec.histBefore <+: (processAIRequest env ex fuel store hist).history) ∧
    (∀ i rec1 rec2,
       (processAIRequest env ex fuel store hist).trace.get? i = some rec1 →
       (processAIRequest env ex fuel store hist).trace.get? (i + 1) = some rec2 →
       rec1.histBefore <+: rec2.histBefore) ∧
    (∀ i : Fin hist.length,
       (processAIRequest env ex fuel store hist).history.get? i.val = some (hist.get i)) ∧
    (∀ h c, addUserMessage h c = h ++ [userMessage c]) ∧
    (∀ h m, addMessage h m = h ++ [m]) := by
  have hpre : hist <+: (processAIRequest env ex fuel store hist).history := by
    unfold processAIRequest
    by_cases hv : env.configValid = true
    · simp only [hv, if_true]
      exact runLoop_hist_grows env ex fuel 0 store hist
    · simp [hv]
  refine ⟨hpre, ?_, ?_, ?_, fun h c => rfl, fun h m => rfl⟩
  · unfold processAIRequest
    by_cases hv : env.configValid = true
    · simp only [hv, if_true]
      exact runLoop_rec_grows env ex fuel 0 store hist
    · simp [hv]
  · intro i rec1 rec2 h1 h2
    unfold processAIRequest at h1 h2
    by_cases hv : env.configValid = true
    · simp only [hv, if_true] at h1 h2
      rcases runLoop_successor env ex fuel 0 store hist i rec1 rec2 h1 h2 with
        ⟨c, cs, _, hhist⟩
      rw [hhist]
      unfold addMessage
      rw [List.append_assoc]
      exact List.prefix_append _ _
    · simp [hv] at h1
  · intro i
    rcases hpre with ⟨t, ht⟩
    rw [← ht, List.get?_append i.isLt, List.get?_eq_get i.isLt]

theorem conversation_append_only_witness :
    hist0 <+: (processAIRequest envA exch0 3 [] hist0).history ∧
    (processAIRequest envA exch0 3 [] hist0).history.get? 0 = some (userMessage "list files") := by
  have h := conversation_append_only envA exch0 3 [] hist0
  exact ⟨h.1, h.2.2.2.1 ⟨0, by decide⟩⟩

/-- A permission option of the advanced selector (tool-permission.ts lines
30-38). -/
structure PermissionOption where
  id : String
  name : String
  color : String
  approved : Bool
  createPolicy : Option Bool := none
  stopStream : Option Bool := none
  shortcut : Option String := none
deriving DecidableEq

/-- ToolPermissionSelector.getPermissionOptions (tool-permission.ts lines
180-206): approve, approve-and-persist-policy, deny-and-stop. -/
def getPermissionOptions : List PermissionOption :=
  [{ id := "approve", name := "Continue", color := "green", approved := true,
     shortcut := some "(tab)" },
   { id := "approve_policy", name := "Continue + don\x27t ask again", color := "cyan",
     approved := true, createPolicy := some true, shortcut := some "(shift+tab)" },
   { id := "deny_stop", name := "No, and tell AI what to do differently", color := "yellow",
     approved := false, stopStream := some true, shortcut := some "(esc)" }]

/-- The flags the selector reports to its caller through onResponse. -/
structure SelectorDecision where
  approved : Bool
  createPolicy : Option Bool
  stopStream : Option Bool
deriving DecidableEq

/-- The semantics of `key.toLowerCase()` on the key strings of the
confirmation prompts: lower-case every character. -/
def keyToLower (s : String) : String :=
  String.mk (s.data.map Char.toLower)

/-- The key dispatch of ToolPermissionSelector.waitForInput (tool-permission.ts
lines 267-326) for a given selected index: Enter submits the selected
option with its approved/createPolicy/stopStream flags, tab approves,
escape / n / Ctrl+C deny and stop, y approves; arrow keys (which only
move the selection) and any other key keep waiting (none).  The decision
is merely handed to the onResponse callback — the selector has no access
to the confirmation-policy store. -/
def selectorRespond (selectedIndex : Nat) (key : String) : Option SelectorDecision :=
  if key = "\x0D" ∨ key = "\x0A" then
    match getPermissionOptions.get? selectedIndex with
    | some opt =>
        some { approved := opt.approved, createPolicy := opt.createPolicy,
               stopStream := opt.stopStream }
    | none => none
  else if key = "\x09" then some { approved := true, createPolicy := some false, stopStream := some false }
  else if key = "\x1B" then some { approved := false, createPolicy := some false, stopStream := some true }
  else if keyToLower key = "y" then some { approved := true, createPolicy := some false, stopStream := some false }
  else if keyToLower key = "n" then some { approved := false, createPolicy := some false, stopStream := some true }
  else if key = "\x03" then some { approved := false, createPolicy := some false, stopStream := some true }
  else none

/-- The key handler of askUserConfirmation (message-handler.ts lines
819-846), the confirmation prompt actually used by the dispatcher:
`switch (key.toLowerCase())` — y and Enter (carriage return or newline)
resolve approval, n and Ctrl+C resolve denial, every other key is
ignored and the prompt keeps waiting.  The resolved value is a plain
boolean: no persist-as-policy decision is representable here. -/
def askUserConfirmationKey (key : String) : Option Bool :=
  match keyToLower key with
  | "y" => some true
  | "n" => some false
  | "\x0D" => some true
  | "\x0A" => some true
  | "\x03" => some false
  | _ => none

def callEdit : ToolCallRecord :=
  { id := "call_f", fnName := "file-system_edit_file",
    rawArguments := "\x7b\"path\":\"a.txt\"\x7d" }

/-- C10: in the dispatcher confirmation prompt, pressing Enter (carriage
return or newline) is treated as approval — identical to pressing y —
and Ctrl+C is treated as denial; a confirmation-required call answered
with the default affirmative key executes and yields the same result as
one answered with an explicit y. -/
theorem enter_approves_ctrl_c_denies :
    askUserConfirmationKey "\x0D" = some true ∧
    askUserConfirmationKey "\x0A" = some true ∧
    askUserConfirmationKey "\x0D" = askUserConfirmationKey "y" ∧
    askUserConfirmationKey "\x03" = some false ∧
    askUserConfirmationKey "x" = none ∧
    handleToolCall
        { envA with confirm := fun _ => (askUserConfirmationKey "\x0D").getD false }
        storeA callEdit =
      handleToolCall
        { envA with confirm := fun _ => (askUserConfirmationKey "y").getD false }
        storeA callEdit ∧
    (handleToolCall
        { envA with confirm := fun _ => (askUserConfirmationKey "\x0D").getD false }
        storeA callEdit).1 =
      successToolMessage callEdit ("ran file-system_edit_file \x7b\"path\":\"a.txt\"\x7d") := by
  refine ⟨by decide, by decide, by decide, by decide, by decide, by decide, by decide⟩

theorem processAIRequest_store (env : TurnEnv) (ex : Nat → ExchangeOutcome)
    (fuel : Nat) (store : ConfStore) (hist : List Message) :
    (processAIRequest env ex fuel store hist).store = store := by
  unfold processAIRequest
  by_cases hv : env.configValid = true
  · simp only [hv, if_true]
    exact runLoop_store env ex fuel 0 store hist
  · simp [hv]

/-- C4 (amended): during tool dispatch no confirmation decision ever
updates the confirmation-policy store — the dispatcher prompt resolves
only an approve/deny boolean and a whole turn returns the store
unchanged; the advanced selector does define a persist-as-policy option
(createPolicy) but only reports the flag to its caller, and no caller in
the sources writes the store (the store is written only from the
configuration menu). -/
theorem confirmation_policy_store_unchanged (env : TurnEnv) (ex : Nat → ExchangeOutcome)
    (fuel : Nat) (store : ConfStore) (hist : List Message) :
    (processAIRequest env ex fuel store hist).store = store ∧
    (∀ call, (handleToolCall env store call).2 = store) ∧
    getPermissionOptions.get? 1 =
      some { id := "approve_policy", name := "Continue + don\x27t ask again", color := "cyan",
             approved := true, createPolicy := some true, shortcut := some "(shift+tab)" } ∧
    selectorRespond 1 "\x0D" =
      some { approved := true, createPolicy := some true, stopStream := none } := by
  exact ⟨processAIRequest_store env ex fuel store hist,
         fun call => handleToolCall_store env store call, rfl, rfl⟩

def exchEdit : Nat → ExchangeOutcome := fun n =>
  if n = 0 then ExchangeOutcome.toolCalls "" [callEdit] else ExchangeOutcome.completed "done"

/-- C4 counterexample: the user makes the persist-as-policy decision (the
selector's approve_policy option via Enter reports createPolicy = true)
and the confirmation-required capability is approved and dispatched to
completion — yet after the turn the confirmation-policy store still
requires confirmation for that capability: the decision has not been
persisted for the remainder of the process, contradicting the claim. -/
theorem persist_policy_decision_not_persisted :
    selectorRespond 1 "\x0D" =
      some { approved := true, createPolicy := some true, stopStream := none } ∧
    isFunctionConfirmationRequired storeA "file-system_edit_file" = true ∧
    (processAIRequest envA exchEdit 3 storeA [userMessage "edit a.txt"]).ended = true ∧
    (processAIRequest envA exchEdit 3 storeA [userMessage "edit a.txt"]).store = storeA ∧
    isFunctionConfirmationRequired
      (processAIRequest envA exchEdit 3 storeA [userMessage "edit a.txt"]).store
      "file-system_edit_file" = true := by
  refine ⟨rfl, by decide, by decide, by decide, by decide⟩

/-- The streamChat options record (src/services/openai.ts
StreamChatOptions per the repo integration notes, part_001): messages,
tools and an optional abort signal — the only channel through which a
cancellation can reach the streaming session. -/
structure StreamChatOptions where
  messages : List ChatMessage
  tools : Option (List String)
  signal : Option Bool := none
deriving DecidableEq

/-- The streamChat invocation built by processAIRequest (message-handler.ts
lines 483-485): messages and, when any tools exist, tools — and no abort
signal: the call site never passes one, and the MessageHandler callback
interface does not even expose the getAbortSignal callback the screen
provides. -/
def mkStreamChatOptions (chatMessages : List ChatMessage) (tools : List String) :
    StreamChatOptions :=
  { messages := chatMessages,
    tools := if tools.length > 0 then some tools else none }

/-- The screen-side cancellation state touched by cancelCurrentRequest
(welcome-simple.ts lines 1632-1658). -/
structure ScreenState where
  abortControllerPresent : Bool
  canSendMessage : Bool
  isProcessing : Bool
deriving DecidableEq

/-- cancelCurrentRequest: when a controller is present it is aborted and
dropped, the loading animation stops and the chat state is reset;
nothing else in the sources ever reads the aborted signal. -/
def cancelCurrentRequest (s : ScreenState) : ScreenState :=
  if s.abortControllerPresent then
    { abortControllerPresent := false, canSendMessage := true, isProcessing := false }
  else s

/-- C8 (code evaluation at the failing input): the claim fails on the
sources — for every request the streamChat options built by
processAIRequest carry no abort signal, so the cancellation triggered by
cancelCurrentRequest (which only aborts the screen's controller and
resets the chat state) can never be observed by the active streaming
session. -/
theorem cancellation_token_never_reaches_session (msgs : List ChatMessage)
    (tools : List String) (can proc : Bool) :
    (mkStreamChatOptions msgs tools).signal = none ∧
    cancelCurrentRequest { abortControllerPresent := true, canSendMessage := can,
                           isProcessing := proc } =
      { abortControllerPresent := false, canSendMessage := true, isProcessing := false } :=
  ⟨rfl, rfl⟩

/-- Sum of the estimated token costs of a message list (the Token
Estimator is the oracle `estimate`). -/
def historyCost (estimate : Message → Nat) (l : List Message) : Nat :=
  (l.map estimate).sum

/-- Walk from the most recent message backward (the input list here is
most-recent-first), accumulating cost and stopping before the limit is
exceeded (spec §4.2 step 2). -/
def walkBudget (estimate : Message → Nat) (limit : Nat) : Nat → List Message → List Message
  | _, [] => []
  | acc, m :: rest =>
    if acc + estimate m ≤ limit then
      m :: walkBudget estimate limit (acc + estimate m) rest
    else []

/-- The cost-bounded suffix of the history reached by the backward walk. -/
def budgetSuffix (estimate : Message → Nat) (limit : Nat) (history : List Message) :
    List Message :=
  (walkBudget estimate limit 0 history.reverse).reverse

/-- Whether position j of the history holds a user message. -/
def userAt (history : List Message) (j : Nat) : Bool :=
  (history.get? j).any fun m => decide (m.type = MsgType.user)

/-- Greatest index at or below the given one holding a user message: the
backward extension of spec §4.2 step 4. -/
def findUserAtOrBefore (history : List Message) : Nat → Option Nat
  | 0 => if userAt history 0 then some 0 else none
  | j + 1 =>
    if userAt history (j + 1) then some (j + 1) else findUserAtOrBefore history j

def findUserFromAux (history : List Message) : Nat → Nat → Option Nat
  | 0, _ => none
  | count + 1, s =>
    if userAt history s then some s else findUserFromAux history count (s + 1)

/-- First index at or after the given one holding a user message. -/
def findUserFrom (history : List Message) (s : Nat) : Option Nat :=
  findUserFromAux history (history.length - s) s

structure SelectHistoryResult where
  allowedMessages : List Message
  budgetExceeded : Bool
deriving DecidableEq

/-- Modelled from the spec: TokenCalculator.selectHistoryMessages — the
file src/utils/token-calculator.ts is not among the sources, only its
call site in buildChatMessages is.  Spec §4.2 steps 2-4: walk the
history backward accumulating estimated cost, stopping before the limit
is exceeded; extend further backward until the selection starts with a
user message; if even the single latest user turn exceeds the limit,
include it anyway and flag a budget-exceeded condition rather than
returning an empty selection.  The spec leaves open the case where no
user message exists at or before the cut; this model then advances to
the first user message after the cut, preserving the call-site guarantee
that the selection starts with a user message, and selects nothing when
the history holds no user message at all. -/
def selectHistoryMessages (estimate : Message → Nat) (limit : Nat)
    (history : List Message) : SelectHistoryResult :=
  let suffixStart := history.length - (budgetSuffix estimate limit history).length
  let start :=
    match findUserAtOrBefore history suffixStart with
    | some j => some j
    | none => findUserFrom history suffixStart
  match start with
  | some j =>
    { allowedMessages := history.drop j,
      budgetExceeded := decide (limit < historyCost estimate (history.drop j)) }
  | none => { allowedMessages := [], budgetExceeded := false }

/-- Index of the most recent user message: where the latest user turn
starts. -/
def lastUserStart (history : List Message) : Option Nat :=
  findUserAtOrBefore history history.length

theorem findUserAtOrBefore_user (history : List Message) :
    ∀ j k, findUserAtOrBefore history j = some k → userAt history k = true := by
  intro j
  induction j with
  | zero =>
    intro k h
    unfold findUserAtOrBefore at h
    by_cases hu : userAt history 0 = true
    · simp [hu] at h
      rw [← h]
      exact hu
    · simp [hu] at h
  | succ j ih =>
    intro k h
    unfold findUserAtOrBefore at h
    by_cases hu : userAt history (j + 1) = true
    · simp [hu] at h
      rw [← h]
      exact hu
    · simp [hu] at h
      exact ih k h

theorem findUserAtOrBefore_maximal (history : List Message) :
    ∀ j k, findUserAtOrBefore history j = some k →
      ∀ i, i ≤ j → userAt history i = true → i ≤ k := by
  intro j
  induction j with
  | zero =>
    intro k h i hij _
    interval_cases i
    unfold findUserAtOrBefore at h
    by_cases hu : userAt history 0 = true
    · simp [hu] at h
      omega
    · simp [hu] at h
  | succ j ih =>
    intro k h i hij hiu
    unfold findUserAtOrBefore at h
    by_cases hu : userAt history (j + 1) = true
    · simp [hu] at h
      omega
    · simp [hu] at h
      rcases Nat.lt_or_ge i (j + 1) with hlt | hge
      · exact ih k h i (Nat.lt_succ_iff.1 hlt) hiu
      · have : i = j + 1 := Nat.le_antisymm hij hge
        rw [this] at hiu
        exact absurd hiu hu

theorem findUserAtOrBefore_exists (history : List Message) :
    ∀ j i, i ≤ j → userAt history i = true →
      ∃ k, findUserAtOrBefore history j = some k := by
  intro j
  induction j with
  | zero =>
    intro i hij hiu
    interval_cases i
    exact ⟨0, by unfold findUserAtOrBefore; simp [hiu]⟩
  | succ j ih =>
    intro i hij hiu
    unfold findUserAtOrBefore
    by_cases hu : userAt history (j + 1) = true
    · exact ⟨j + 1, by simp [hu]⟩
    · rcases Nat.lt_or_ge i (j + 1) with hlt | hge
      · rcases ih i (Nat.lt_succ_iff.1 hlt) hiu with ⟨k, hk⟩
        exact ⟨k, by simp [hu, hk]⟩
      · have : i = j + 1 := Nat.le_antisymm hij hge
        rw [this] at hiu
        exact absurd hiu hu

theorem findUserAtOrBefore_none (history : List Message) :
    ∀ j, findUserAtOrBefore history j = none →
      ∀ i, i ≤ j → userAt history i = false := by
  intro j hnone i hij
  by_cases hu : userAt history i = true
  · rcases findUserAtOrBefore_exists history j i hij hu with ⟨k, hk⟩
    rw [hnone] at hk
    cases hk
  · simpa using hu

theorem findUserFromAux_user (history : List Message) :
    ∀ count s k, findUserFromAux history count s = some k → userAt history k = true := by
  intro count
  induction count with
  | zero => intro s k h; simp [findUserFromAux] at h
  | succ count ih =>
    intro s k h
    unfold findUserFromAux at h
    by_cases hu : userAt history s = true
    · simp [hu] at h
      rw [← h]
      exact hu
    · simp [hu] at h
      exact ih (s + 1) k h

theorem findUserFromAux_exists (history : List Message) :
    ∀ count s i, s ≤ i → i < s + count → userAt history i = true →
      ∃ k, findUserFromAux history count s = some k := by
  intro count
  induction count with
  | zero => intro s i hsi hlt _; omega
  | succ count ih =>
    intro s i hsi hlt hiu
    unfold findUserFromAux
    by_cases hu : userAt history s = true
    · exact ⟨s, by simp [hu]⟩
    · have hne : s ≠ i := by
        intro he
        rw [he] at hu
        exact hu hiu
      rcases ih (s + 1) i (by omega) (by omega) hiu with ⟨k, hk⟩
      exact ⟨k, by simp [hu, hk]⟩

theorem userAt_lt_length (history : List Message) (k : Nat)
    (h : userAt history k = true) : k < history.length := by
  unfold userAt at h
  cases hg : history.get? k with
  | none => rw [hg] at h; simp [Option.any] at h
  | some m => exact List.get?_eq_some.1 hg |>.1

theorem historyCost_drop_le (estimate : Message → Nat) (l : List Message) :
    ∀ m, historyCost estimate (l.drop m) ≤ historyCost estimate l := by
  induction l with
  | nil => intro m; simp [historyCost]
  | cons a t ih =>
    intro m
    cases m with
    | zero => exact le_refl _
    | succ m =>
      simp only [List.drop_succ_cons]
      calc historyCost estimate (t.drop m) ≤ historyCost estimate t := ih m
        _ ≤ historyCost estimate (a :: t) := by simp [historyCost]

theorem selectHistory_drop_form (estimate : Message → Nat) (limit : Nat)
    (history : List Message) (huser : ∃ i, userAt history i = true) :
    ∃ j, userAt history j = true ∧
      selectHistoryMessages estimate limit history =
        { allowedMessages := history.drop j,
          budgetExceeded := decide (limit < historyCost estimate (history.drop j)) } := by
  rcases huser with ⟨i, hi⟩
  have hin : i < history.length := userAt_lt_length history i hi
  unfold selectHistoryMessages
  cases hb : findUserAtOrBefore history
      (history.length - (budgetSuffix estimate limit history).length) with
  | some j =>
    refine ⟨j, findUserAtOrBefore_user history _ j hb, ?_⟩
    simp [hb]
  | none =>
    have hgt : history.length - (budgetSuffix estimate limit history).length < i := by
      by_contra hle
      have hif := findUserAtOrBefore_none history _ hb i (by omega)
      rw [hif] at hi
      cases hi
    rcases findUserFromAux_exists history
        (history.length - (history.length - (budgetSuffix estimate limit history).length))
        (history.length - (budgetSuffix estimate limit history).length) i
        (by omega) (by omega) hi with ⟨k, hk⟩
    refine ⟨k, findUserFromAux_user history _ _ k hk, ?_⟩
    simp [hb, findUserFrom, hk]

/-- C9: for every history containing a user message and every budget, the
selected window is a suffix of the history beginning with a user
message (the backward walk is extended until the selection starts with a
user message), and when even the single latest user turn — from the most
recent user message to the end — exceeds the limit, that turn is still
included with the budget-exceeded condition flagged, rather than an
empty selection being returned. -/
theorem selectHistory_starts_with_user (estimate : Message → Nat) (limit : Nat)
    (history : List Message) (huser : ∃ i, userAt history i = true) :
    (∃ j, (selectHistoryMessages estimate limit history).allowedMessages = history.drop j ∧
       userAt history j = true) ∧
    (selectHistoryMessages estimate limit history).allowedMessages ≠ [] ∧
    ((selectHistoryMessages estimate limit history).allowedMessages.head?).all
      (fun m => decide (m.type = MsgType.user)) = true ∧
    (∀ ju, lastUserStart history = some ju →
       limit < historyCost estimate (history.drop ju) →
       (selectHistoryMessages estimate limit history).budgetExceeded = true ∧
       (history.drop ju).length ≤
         (selectHistoryMessages estimate limit history).allowedMessages.length) := by
  rcases selectHistory_drop_form estimate limit history huser with ⟨j, hju, heq⟩
  have hjlt : j < history.length := userAt_lt_length history j hju
  have hhead : (history.drop j).head? = history.get? j := by
    rw [List.head?_eq_getElem?, List.getElem?_drop, Nat.add_zero, List.get?_eq_getElem?]
  refine ⟨⟨j, by rw [heq], hju⟩, ?_, ?_, ?_⟩
  · rw [heq]
    simp only []
    intro hnil
    have := List.drop_eq_nil_iff_le.1 hnil
    omega
  · rw [heq]
    simp only []
    rw [hhead]
    unfold userAt at hju
    cases hg : history.get? j with
    | none => rw [hg] at hju; simp [Option.any] at hju
    | some m =>
      rw [hg] at hju
      simp [Option.any] at hju ⊢
      exact hju
  · intro ju hlast hexceed
    have hmax := findUserAtOrBefore_maximal history history.length ju hlast j
      (Nat.le_of_lt hjlt) hju
    have hdropdrop : (history.drop j).drop (ju - j) = history.drop ju := by
      rw [List.drop_drop]
      congr 1
      omega
    have hcost : historyCost estimate (history.drop ju) ≤
        historyCost estimate (history.drop j) := by
      rw [← hdropdrop]
      exact historyCost_drop_le estimate (history.drop j) (ju - j)
    constructor
    · rw [heq]
      simp only [decide_eq_true_eq]
      omega
    · rw [heq]
      simp only [List.length_drop]
      omega

def estimateW : Message → Nat := fun _ => 10

def histW : List Message :=
  [userMessage "first question", aiMessage "first answer",
   userMessage "second question", aiMessage "second answer"]

theorem selectHistory_starts_with_user_witness :
    (selectHistoryMessages estimateW 5 histW).allowedMessages ≠ [] ∧
    ((selectHistoryMessages estimateW 5 histW).allowedMessages.head?).all
      (fun m => decide (m.type = MsgType.user)) = true ∧
    (selectHistoryMessages estimateW 5 histW).budgetExceeded = true := by
  have h := selectHistory_starts_with_user estimateW 5 histW ⟨0, by decide⟩
  exact ⟨h.2.1, h.2.2.1, (h.2.2.2 2 (by decide) (by decide)).1⟩

end OpenAICli
